import Mathlib

/-!
# Music Catalog Evaluator — verification of the valuation and ingestion core

Shallow embedding of the server core of the Music-Catalog-Evaluator
repository.  JavaScript numbers are modelled by `ℚ` (every literal and
every arithmetic operation appearing in the verified code paths is exact
decimal arithmetic well within double precision), `Math.round` by
Mathlib's `round` (both are `⌊x + 1/2⌋`), and fallible code by `Except` /
`Option`.  Database writes are modelled as explicit state traces.
-/

namespace MusicCatalog

/-- One normalized observation of streaming activity
(`StreamData` / `ProcessedData` in the source). -/
structure StreamRecord where
  platform : String
  streams : ℤ
  revenue : ℚ
  date : String
deriving DecidableEq, Repr

/-- User supplied valuation parameters (`ValuationConfig` in the source). -/
structure ValuationConfig where
  spotifyRate : ℚ
  appleMusicRate : ℚ
  yearOneDecay : ℚ
  yearTwoDecay : ℚ
  yearThreeDecay : ℚ
deriving DecidableEq, Repr

/-- The zod validation bounds of `valuationConfigSchema` (db/schema.ts):
rates in `[0,1]`, decay percentages integral in `[0,100]`. -/
def validConfig (c : ValuationConfig) : Prop :=
  0 ≤ c.spotifyRate ∧ c.spotifyRate ≤ 1 ∧
  0 ≤ c.appleMusicRate ∧ c.appleMusicRate ≤ 1 ∧
  0 ≤ c.yearOneDecay ∧ c.yearOneDecay ≤ 100 ∧ c.yearOneDecay.den = 1 ∧
  0 ≤ c.yearTwoDecay ∧ c.yearTwoDecay ≤ 100 ∧ c.yearTwoDecay.den = 1 ∧
  0 ≤ c.yearThreeDecay ∧ c.yearThreeDecay ≤ 100 ∧ c.yearThreeDecay.den = 1

instance (c : ValuationConfig) : Decidable (validConfig c) := by
  unfold validConfig; infer_instance

/-- One entry of the projection sequence (`ProjectionYear` in the source). -/
structure ProjectionYear where
  year : ℤ
  revenue : ℤ
  decayRate : ℚ
deriving DecidableEq, Repr

/-- The `reduce` callback of `calculateBaseRevenue`: accumulate one record's
revenue into the per-platform record (modelled as an association list,
insertion ordered, mirroring JS object key order). -/
def addRevenue (acc : List (String × ℚ)) (item : StreamRecord) : List (String × ℚ) :=
  match acc.lookup item.platform with
  | some r => acc.map (fun p => if p.1 = item.platform then (p.1, r + item.revenue) else p)
  | none => acc ++ [(item.platform, item.revenue)]

/-- `calculateBaseRevenue`, first half: the `reduce` that groups revenue by
platform into a record. -/
def groupRevenueByPlatform (data : List StreamRecord) : List (String × ℚ) :=
  data.foldl addRevenue []

/-- `calculateBaseRevenue` (valuationEngine.ts): groups revenue by platform,
then sums the per-platform totals. -/
def calculateBaseRevenue (data : List StreamRecord) : ℚ :=
  ((groupRevenueByPlatform data).map Prod.snd).foldl (· + ·) 0

/-- `getDecayRate` (valuationEngine.ts): tiered decay selection on the
0-based projection year index. -/
def getDecayRate (year : ℕ) (config : ValuationConfig) : ℚ :=
  if year < 2 then config.yearOneDecay
  else if year < 4 then config.yearTwoDecay
  else config.yearThreeDecay

/-- The loop body of `calculateProjections`: carries `currentRevenue`
(unrounded) across iterations, pushing the rounded value each year. -/
def projLoop (config : ValuationConfig) (currentYear : ℤ) :
    ℚ → ℕ → ℕ → List ProjectionYear
  | _, _, 0 => []
  | currentRevenue, year, fuel + 1 =>
    let decayRate := getDecayRate year config
    let nextRevenue := currentRevenue * (1 - decayRate / 100)
    { year := currentYear + year, revenue := round nextRevenue, decayRate := decayRate } ::
      projLoop config currentYear nextRevenue (year + 1) fuel

/-- `calculateProjections` (valuationEngine.ts): 7-year projection starting
from the base revenue; `currentYear` stands for `new Date().getFullYear()`. -/
def calculateProjections (data : List StreamRecord) (config : ValuationConfig)
    (currentYear : ℤ) : List ProjectionYear :=
  projLoop config currentYear (calculateBaseRevenue data) 0 7

/-- The summary object returned by `generateSummary` (valuationEngine.ts).
The source field name is `currentRevenue`; the db schema and spec call the
same quantity `currentAnnualRevenue`. -/
structure Summary where
  totalTracks : ℕ
  currentRevenue : ℤ
  totalStreams : ℤ
  projectedValue : ℤ
  platformBreakdown : List (String × ℤ × ℚ)
deriving DecidableEq, Repr

/-- `calculatePlatformBreakdown` (valuationEngine.ts): per-platform stream
and revenue totals, as an insertion-ordered association list. -/
def calculatePlatformBreakdown (data : List StreamRecord) :
    List (String × ℤ × ℚ) :=
  data.foldl (fun acc item =>
    match acc.lookup item.platform with
    | some (s, r) =>
      acc.map (fun p => if p.1 = item.platform then (p.1, s + item.streams, r + item.revenue) else p)
    | none => acc ++ [(item.platform, item.streams, item.revenue)]) []

/-- `generateSummary` (valuationEngine.ts).  `projections[0]` in JS demands a
non-empty list; it is modelled with `headD` and only ever applied to the
7-entry output of `calculateProjections`. -/
def generateSummary (data : List StreamRecord) (projections : List ProjectionYear) :
    Summary :=
  let totalStreams := data.foldl (fun sum item => sum + item.streams) 0
  let currentRevenue := (projections.headD ⟨0, 0, 0⟩).revenue
  let discountRate : ℚ := 1 / 10
  let projectedValue :=
    round ((projections.enum.foldl
      (fun sum p => sum + (p.2.revenue : ℚ) / (1 + discountRate) ^ (p.1 + 1)) (0 : ℚ)))
  { totalTracks := (data.map (·.date)).dedup.length
    currentRevenue := currentRevenue
    totalStreams := totalStreams
    projectedValue := projectedValue
    platformBreakdown := calculatePlatformBreakdown data }

/-- The unrounded revenue recurrence actually carried by the loop:
`u 0 = baseRevenue`, `u (i+1) = u i * (1 - getDecayRate i config / 100)`. -/
def unroundedRevenue (config : ValuationConfig) (base : ℚ) : ℕ → ℚ
  | 0 => base
  | i + 1 => unroundedRevenue config base i * (1 - getDecayRate i config / 100)

/-- The claim-side NPV term of projection entry `i`:
`revenue[i] / (1 + 0.1)^(i+1)`. -/
def discountedTerm (ps : List ProjectionYear) (i : ℕ) : ℚ :=
  ((ps.getD i ⟨0, 0, 0⟩).revenue : ℚ) / (1 + 1 / 10) ^ (i + 1)

/-- A small valid configuration with 5 % decay in every tier, used for
concrete evaluations. -/
def cfg5 : ValuationConfig := ⟨4 / 1000, 1 / 100, 5, 5, 5⟩

/-- A single record with revenue 10, used for concrete evaluations. -/
def rec10 : StreamRecord := ⟨"Spotify", 0, 10, "2024-01-01"⟩

/-- Batch status values: the `processing_status.status` column (schema enum
`idle | processing | complete | error`) together with the `pending` value the
spec speaks of. -/
inductive Status
  | pending
  | idle
  | processing
  | complete
  | error
deriving DecidableEq, Repr

/-- One uploaded file as seen by `processFiles`: its byte size and the outcome
`processFile` would produce for it (the extracted records, or the error thrown
by csv/pdf/image extraction or the unsupported-extension branch). -/
structure FileInput where
  size : ℕ
  extract : Except String (List StreamRecord)

/-- The 50 MB per-file limit checked inside `processFiles`. -/
def maxFileSize : ℕ := 50 * 1024 * 1024

/-- The per-file contribution inside the chunk loop of `processFiles`: the
try/catch wrapper makes an oversized file or a failed extraction contribute
`[]` instead of aborting the batch. -/
def perFileResult (f : FileInput) : List StreamRecord :=
  if f.size > maxFileSize then []
  else
    match f.extract with
    | .ok rs => rs
    | .error _ => []

/-- The accumulated `results` array after the chunk loop of `processFiles`. -/
def combinedResults (files : List FileInput) : List StreamRecord :=
  (files.map perFileResult).flatten

/-- The concurrency chunk size of `processFiles` (3 concurrent operations). -/
def chunkSize : ℕ := 3

/-- Number of chunk iterations of the loop `for (i = 0; i < n; i += 3)`. -/
def numChunks (n : ℕ) : ℕ := (n + chunkSize - 1) / chunkSize

/-- The progress value written after chunk `k` (0-based):
`Math.min(((i + chunk.length) / files.length) * 100, 99)` with `i = 3k` and
`i + chunk.length = min(3(k+1), n)`. -/
def chunkProgress (n k : ℕ) : ℚ :=
  min (((min (chunkSize * (k + 1)) n : ℕ) : ℚ) / (n : ℚ) * 100) 99

/-- The sequence of progress values written by the chunk loop. -/
def progressUpdates (n : ℕ) : List ℚ :=
  (List.range (numChunks n)).map (chunkProgress n)

/-- The progress value left in the row when the loop finishes (0 when no
chunk ever ran). -/
def lastProgress (n : ℕ) : ℚ := (progressUpdates n).getLastD 0

/-- One snapshot of the `processing_status` row for a batch. -/
structure BatchState where
  status : Status
  progress : ℚ
  results : Option (List StreamRecord)
  error : Option String
deriving DecidableEq, Repr

/-- The row inserted at batch creation:
`{ status: 'processing', progress: 0, results: null }`. -/
def initBatch : BatchState :=
  { status := .processing, progress := 0, results := none, error := none }

/-- The error message of the empty-result throw in `processFiles`. -/
def noValidDataMsg : String := "No valid data could be extracted from the files"

/-- The successive states of the `processing_status` row written by
`processFiles`: the creation insert, one `updateProgress` per chunk, then
either the error update (when zero records were extracted over all files) or
`storeResults` (status `complete` with the persisted results) followed by
`updateProgress(batchId, 100)`. -/
def batchTrace (files : List FileInput) : List BatchState :=
  let n := files.length
  let rs := combinedResults files
  let updates := (progressUpdates n).map
    (fun p => ({ status := .processing, progress := p, results := none, error := none } :
      BatchState))
  if rs.length = 0 then
    initBatch :: updates ++
      [{ status := .error, progress := lastProgress n, results := none,
         error := some noValidDataMsg }]
  else
    initBatch :: updates ++
      [{ status := .complete, progress := lastProgress n, results := some rs, error := none },
       { status := .complete, progress := 100, results := some rs, error := none }]

/-- One parsed csv row as produced by `Papa.parse` with `header: true`: the
column values the code reads, each possibly absent.  (Rows that are not
objects are dropped by the `typeof row === 'object'` pre-filter before this
shape is reached.) -/
structure RawRow where
  streams : Option String
  revenue : Option String
  platform : Option String
  date : Option String
  Streams : Option String
  Revenue : Option String
  Platform : Option String
  Date : Option String
deriving DecidableEq, Repr

/-- JS truthiness of a possibly-absent string: `undefined` and `""` are
falsy, every other string is truthy. -/
def jsTruthy : Option String → Bool
  | none => false
  | some s => if s = "" then false else true

/-- The JS `a || b || d` chain over possibly-absent strings: the first truthy
value, else the default. -/
def firstTruthy : List (Option String) → String → String
  | [], d => d
  | none :: rest, d => firstTruthy rest d
  | some s :: rest, d => if s = "" then firstTruthy rest d else s

/-- The natural number denoted by a list of decimal digit characters. -/
def natOfDigits (ds : List Char) : ℕ :=
  ds.foldl (fun n c => n * 10 + (c.toNat - 48)) 0

/-- `parseInt(s, 10)`: skip leading whitespace, take an optional sign and the
longest leading run of decimal digits (trailing junk is ignored); `NaN`
(modelled as `none`) when no digit is found. -/
def jsParseInt (s : String) : Option ℤ :=
  let cs := s.toList.dropWhile Char.isWhitespace
  let signed : ℤ × List Char :=
    match cs with
    | '-' :: rest => (-1, rest)
    | '+' :: rest => (1, rest)
    | _ => (1, cs)
  let digits := signed.2.takeWhile Char.isDigit
  if digits.isEmpty then none
  else some (signed.1 * (natOfDigits digits : ℤ))

/-- The exponent part of a JS float literal: an optional sign and digits;
an empty digit run contributes exponent 0 (`parseFloat` stops there). -/
def parseExpPart (cs : List Char) : ℤ :=
  let signed : ℤ × List Char :=
    match cs with
    | '-' :: rest => (-1, rest)
    | '+' :: rest => (1, rest)
    | _ => (1, cs)
  let ds := signed.2.takeWhile Char.isDigit
  if ds.isEmpty then 0 else signed.1 * (natOfDigits ds : ℤ)

/-- `parseFloat(s)`: skip leading whitespace, optional sign, integer digits,
optional fraction digits, optional exponent; `NaN` (modelled as `none`) when
no digit appears before the exponent.  Decimal inputs are modelled exactly in
`ℚ`. -/
def jsParseFloat (s : String) : Option ℚ :=
  let cs := s.toList.dropWhile Char.isWhitespace
  let signed : ℚ × List Char :=
    match cs with
    | '-' :: rest => (-1, rest)
    | '+' :: rest => (1, rest)
    | _ => (1, cs)
  let intDigits := signed.2.takeWhile Char.isDigit
  let afterInt := signed.2.drop intDigits.length
  let fracDigits : List Char :=
    match afterInt with
    | '.' :: rest => rest.takeWhile Char.isDigit
    | _ => []
  let afterFrac : List Char :=
    match afterInt with
    | '.' :: rest => rest.drop fracDigits.length
    | _ => afterInt
  if intDigits.isEmpty ∧ fracDigits.isEmpty then none
  else
    let mantissa : ℚ :=
      (natOfDigits intDigits : ℚ) + (natOfDigits fracDigits : ℚ) / 10 ^ fracDigits.length
    let exp : ℤ :=
      match afterFrac with
      | 'e' :: rest => parseExpPart rest
      | 'E' :: rest => parseExpPart rest
      | _ => 0
    some (signed.1 * mantissa * 10 ^ exp)

/-- The per-row step of `processCsv`: the code builds
`{ streams: parseInt(row.streams || row.Streams || '0', 10),
   revenue: parseFloat(row.revenue || row.Revenue || '0'),
   platform: row.platform || row.Platform || 'Unknown',
   date: row.date || row.Date || today }`
and then filters out the rows where `streams` or `revenue` is `NaN`; since
`NaN` arises exactly from a failed parse, the two steps are fused into one
`Option`-valued map. -/
def normalizeRow (row : RawRow) (today : String) : Option StreamRecord :=
  match jsParseInt (firstTruthy [row.streams, row.Streams] "0"),
        jsParseFloat (firstTruthy [row.revenue, row.Revenue] "0") with
  | some n, some q =>
    some ⟨firstTruthy [row.platform, row.Platform] "Unknown", n, q,
          firstTruthy [row.date, row.Date] today⟩
  | _, _ => none

/-- `processCsv` (valuationEngine.ts): normalize each parsed row, silently
dropping the disqualified ones; `today` stands for
`new Date().toISOString()`. -/
def processCsv (rows : List RawRow) (today : String) : List StreamRecord :=
  rows.filterMap (fun row => normalizeRow row today)

/-- A row with no streams column at all but a parseable revenue. -/
def rowNoStreams : RawRow :=
  ⟨none, some "3.5", some "Spotify", some "2024-01-01", none, none, none, none⟩

/-- A row whose streams value is a negative integer. -/
def rowNegStreams : RawRow :=
  ⟨some "-5", some "2", some "Spotify", some "2024-02-01", none, none, none, none⟩

/-- A small well-formed csv-like file yielding one record. -/
def fileCsvOk : FileInput := ⟨100, .ok [rec10]⟩

/-- A file whose extraction fails. -/
def fileBroken : FileInput := ⟨100, .error "Unsupported file type: txt"⟩

/-- A file over the 50 MB limit whose extraction would have succeeded. -/
def fileBig : FileInput := ⟨60 * 1024 * 1024, .ok [rec10]⟩

/-- A loosely-typed JSON field value of the external capability's response. -/
inductive JsVal
  | str (s : String)
  | num (q : ℚ)
  | null
deriving DecidableEq, Repr

/-- One item of the JSON array parsed from the external capability's
response (`ClaudeResponse` in the source, duck-typed). -/
structure RawItem where
  platform : JsVal
  streams : JsVal
  revenue : JsVal
  date : JsVal
deriving DecidableEq, Repr

/-- The regex `^\d{4}-\d{2}-\d{2}$` of the validation filter. -/
def isIsoDate (s : String) : Bool :=
  match s.toList with
  | [y1, y2, y3, y4, h1, m1, m2, h2, d1, d2] =>
    y1.isDigit && y2.isDigit && y3.isDigit && y4.isDigit && (h1 == '-') &&
    m1.isDigit && m2.isDigit && (h2 == '-') && d1.isDigit && d2.isDigit
  | _ => false

/-- The per-record validation filter of `analyzeDocument` (claude.ts):
platform a string, streams an integer number (`Number.isInteger`), revenue a
number, date a string matching `YYYY-MM-DD`. -/
def validRecordItem (item : RawItem) : Bool :=
  (match item.platform with | .str _ => true | _ => false) &&
  (match item.streams with | .num q => q.den == 1 | _ => false) &&
  (match item.revenue with | .num _ => true | _ => false) &&
  (match item.date with | .str s => isIsoDate s | _ => false)

/-- `Number(x.toFixed(2))`: normalization of revenue to 2 decimal places. -/
def toFixed2 (q : ℚ) : ℚ := (round (q * 100) : ℚ) / 100

/-- The post-filter mapping of `analyzeDocument`:
`{...item, streams: Math.floor(item.streams), revenue: Number(item.revenue.toFixed(2))}`. -/
def normalizeItem (item : RawItem) : RawItem :=
  { item with
    streams := match item.streams with | .num q => .num (⌊q⌋ : ℚ) | v => v
    revenue := match item.revenue with | .num q => .num (toFixed2 q) | v => v }

/-- The validation phase of `analyzeDocument` (claude.ts, text-analysis
path), applied to the parsed response array: filter out invalid records,
normalize the survivors, and fail when zero records survive. -/
def analyzeDocumentValidation (parsedData : List RawItem) :
    Except String (List RawItem) :=
  let validatedData := (parsedData.filter validRecordItem).map normalizeItem
  if validatedData.length = 0 then .error "No valid records found in analyzed data"
  else .ok validatedData

/-- The parse phase of `processImage` (claude.ts, image-analysis path):
the parsed JSON array is returned as-is — no per-record validation, no
filtering and no zero-record check. -/
def processImageParsed (parsedData : List RawItem) : Except String (List RawItem) :=
  .ok parsedData

/-- An item whose `streams` field is the non-integer number 3/2; it fails
the canonical record validation. -/
def badItem : RawItem :=
  ⟨.str "Spotify", .num (Rat.mk' 3 2), .num 1, .str "2024-01-01"⟩

/-- A JS exception: optional HTTP `status` field and message. -/
structure JsError where
  status : Option ℕ
  message : String
deriving DecidableEq, Repr

/-- `RateLimiter.schedule` (claude.ts): `fn k` is the outcome of the k-th
invocation of the scheduled closure.  On a failure carrying `status === 429`
with retries remaining, the call sleeps 2 s and retries with one fewer retry;
any other failure (or exhausted retries) is rethrown.  The token-bucket wait
suspends without consuming retries and is not part of the retry count. -/
def schedule {α : Type} (fn : ℕ → Except JsError α) : ℕ → ℕ → Except JsError α
  | attempt, 0 => fn attempt
  | attempt, r + 1 =>
    match fn attempt with
    | .ok a => .ok a
    | .error e => if e.status = some 429 then schedule fn (attempt + 1) r else .error e

/-- The default retry bound of `schedule` (`retries = 2`). -/
def defaultRetries : ℕ := 2

/-- The catch-all inside the closure `analyzeDocument` hands to the rate
limiter: every failure of the underlying API call is rethrown as
`new Error('Failed to analyze document: ' + message)` — a plain error with no
`status` field. -/
def wrapAnalyzeDocument {α : Type} (fn : ℕ → Except JsError α) (k : ℕ) :
    Except JsError α :=
  match fn k with
  | .ok a => .ok a
  | .error e => .error ⟨none, "Failed to analyze document: " ++ e.message⟩

/-- `analyzeDocument` as submitted to the rate limiter: the wrapped closure
scheduled with the default retry bound. -/
def analyzeDocumentCall {α : Type} (fn : ℕ → Except JsError α) : Except JsError α :=
  schedule (wrapAnalyzeDocument fn) 0 defaultRetries

/-- A rate-limit signal from the external capability. -/
def rateLimited : JsError := ⟨some 429, "rate limited"⟩

/-- An underlying call that is rate-limited on its first invocation and
succeeds from the second on. -/
def fn429 : ℕ → Except JsError (List StreamRecord) :=
  fun k => if k = 0 then .error rateLimited else .ok [rec10]

/-- One row of the `processing_status` table as read by `getStreamData`:
its status, completion timestamp and nullable results. -/
structure BatchRow where
  status : Status
  completedAt : ℕ
  results : Option (List StreamRecord)
deriving DecidableEq, Repr

/-- The `findFirst` query of `getStreamData`: among rows with status
`complete`, the one with the greatest `completedAt` (the fold keeps the
earlier row on ties, matching a stable descending sort). -/
def latestCompleteBatch (db : List BatchRow) : Option BatchRow :=
  (db.filter (fun b => b.status == Status.complete)).foldl
    (fun acc b =>
      match acc with
      | none => some b
      | some a => if a.completedAt < b.completedAt then some b else some a) none

/-- The error message of `getStreamData`. -/
def noProcessedDataMsg : String := "No processed data available"

/-- `getStreamData` (valuationEngine.ts): read the latest complete batch and
fail when there is none or its `results` field is null. -/
def getStreamData (db : List BatchRow) : Except String (List StreamRecord) :=
  match latestCompleteBatch db with
  | none => .error noProcessedDataMsg
  | some b =>
    match b.results with
    | none => .error noProcessedDataMsg
    | some rs => .ok rs

/-- `calculateValuation` (valuationEngine.ts): obtain the stream data, then
compute and persist summary and projections; on failure nothing is computed
or stored. -/
def calculateValuation (db : List BatchRow) (config : ValuationConfig)
    (currentYear : ℤ) : Except String (Summary × List ProjectionYear) :=
  match getStreamData db with
  | .error e => .error e
  | .ok streamData =>
    .ok (generateSummary streamData (calculateProjections streamData config currentYear),
         calculateProjections streamData config currentYear)

/-- A complete batch whose stored result set is the empty array. -/
def emptyCompleteBatch : BatchRow := ⟨Status.complete, 5, some []⟩

end MusicCatalog

/-! ## Theorems -/

namespace MusicCatalog

/-- Folding addition of a mapped value over a list equals the initial value
plus the sum of the mapped list. -/
theorem foldl_add_map {α M : Type} [AddCommMonoid M] (f : α → M) :
    ∀ (l : List α) (a : M), l.foldl (fun s x => s + f x) a = a + (l.map f).sum := by
  intro l
  induction l with
  | nil => simp
  | cons x xs ih =>
    intro a
    simp only [List.foldl_cons, List.map_cons, List.sum_cons, ih, add_assoc]

/-- Folding plain addition over a list equals the initial value plus the sum. -/
theorem foldl_add_eq_sum {M : Type} [AddCommMonoid M] :
    ∀ (l : List M) (a : M), l.foldl (· + ·) a = a + l.sum := by
  intro l
  induction l with
  | nil => simp
  | cons x xs ih =>
    intro a
    simp only [List.foldl_cons, List.sum_cons, ih, add_assoc]

/-- A failed association-list lookup means no entry carries the key. -/
theorem lookup_none_forall {β : Type} {k : String} :
    ∀ {acc : List (String × β)}, acc.lookup k = none → ∀ p ∈ acc, p.1 ≠ k := by
  intro acc
  induction acc with
  | nil => intro _ p hp; simp at hp
  | cons q rest ih =>
    intro h p hp
    by_cases hkq : k = q.1
    · rw [show q = (q.1, q.2) from rfl, hkq] at h
      simp [List.lookup] at h
    · have h' : rest.lookup k = none := by
        rw [show q = (q.1, q.2) from rfl] at h
        simpa [List.lookup, beq_false_of_ne hkq] using h
      rcases List.mem_cons.mp hp with hpq | hpr
      · subst hpq; exact fun hc => hkq hc.symm
      · exact ih h' p hpr

/-- Updating the unique entry holding key `k` from `r` to `r + rev` raises the
sum of values by exactly `rev`. -/
theorem sum_replace (k : String) (rev : ℚ) :
    ∀ (acc : List (String × ℚ)) (r : ℚ), (acc.map Prod.fst).Nodup →
    acc.lookup k = some r →
    ((acc.map (fun p => if p.1 = k then (p.1, r + rev) else p)).map Prod.snd).sum
      = (acc.map Prod.snd).sum + rev := by
  intro acc
  induction acc with
  | nil => intro r _ h; simp [List.lookup] at h
  | cons q rest ih =>
    intro r hnd h
    simp only [List.map_cons, List.nodup_cons] at hnd
    by_cases hkq : k = q.1
    · have hrq : q.2 = r := by
        rw [show q = (q.1, q.2) from rfl, hkq] at h
        simpa [List.lookup] using h
      have hrest : rest.map (fun p => if p.1 = k then (p.1, r + rev) else p) = rest.map id := by
        apply List.map_congr_left
        intro p hp
        have hpk : p.1 ≠ k := by
          intro hpk
          exact hnd.1 (by
            have hmem : p.1 ∈ rest.map Prod.fst := List.mem_map_of_mem Prod.fst hp
            rwa [hpk, hkq] at hmem)
        simp [hpk]
      rw [List.map_id] at hrest
      simp only [List.map_cons, if_pos hkq.symm, hrest, List.sum_cons, hrq]
      ring
    · have h' : rest.lookup k = some r := by
        rw [show q = (q.1, q.2) from rfl] at h
        simpa [List.lookup, beq_false_of_ne hkq] using h
      have hqk : q.1 ≠ k := fun hc => hkq hc.symm
      simp only [List.map_cons, if_neg hqk, List.sum_cons]
      rw [ih r hnd.2 h']
      ring

/-- `addRevenue` preserves the key list up to appending a fresh key, so key
nodup-ness is invariant; and it raises the total value by the record's
revenue. -/
theorem addRevenue_sum_nodup (acc : List (String × ℚ)) (item : StreamRecord)
    (hnd : (acc.map Prod.fst).Nodup) :
    ((addRevenue acc item).map Prod.fst).Nodup ∧
    ((addRevenue acc item).map Prod.snd).sum = (acc.map Prod.snd).sum + item.revenue := by
  unfold addRevenue
  rcases hl : acc.lookup item.platform with _ | r
  · constructor
    · simp only [List.map_append, List.map_cons, List.map_nil]
      rw [List.nodup_append]
      refine ⟨hnd, List.nodup_singleton _, ?_⟩
      intro x hx hmem
      simp only [List.mem_singleton] at hmem
      subst hmem
      rcases List.mem_map.mp hx with ⟨p, hp, hpx⟩
      exact lookup_none_forall hl p hp hpx
    · simp
  · constructor
    · have : (acc.map (fun p => if p.1 = item.platform then (p.1, r + item.revenue) else p)).map
          Prod.fst = acc.map Prod.fst := by
        rw [List.map_map]
        apply List.map_congr_left
        intro p _
        by_cases hp : p.1 = item.platform <;> simp [hp]
      rw [this]; exact hnd
    · exact sum_replace item.platform item.revenue acc r hnd hl

/-- The platform grouping of `calculateBaseRevenue` preserves the total:
base revenue equals the plain sum of record revenues. -/
theorem calculateBaseRevenue_eq_sum (data : List StreamRecord) :
    calculateBaseRevenue data = (data.map (·.revenue)).sum := by
  suffices h : ∀ (l : List StreamRecord) (acc : List (String × ℚ)),
      (acc.map Prod.fst).Nodup →
      (((l.foldl addRevenue acc).map Prod.snd).sum
          = (acc.map Prod.snd).sum + (l.map (·.revenue)).sum) ∧
      ((l.foldl addRevenue acc).map Prod.fst).Nodup by
    have := (h data [] (by simp)).1
    simp only [List.map_nil, List.sum_nil, zero_add] at this
    rw [calculateBaseRevenue, groupRevenueByPlatform, foldl_add_eq_sum, this, zero_add]
  intro l
  induction l with
  | nil => intro acc h; simpa using h
  | cons x xs ih =>
    intro acc h
    have hstep := addRevenue_sum_nodup acc x h
    have hrec := ih (addRevenue acc x) hstep.1
    constructor
    · simp only [List.foldl_cons, List.map_cons, List.sum_cons]
      rw [hrec.1, hstep.2]
      ring
    · simpa using hrec.2

/-- `cfg5` passes the zod validation bounds. -/
theorem validConfig_cfg5 : validConfig cfg5 := by
  norm_num [validConfig, cfg5]

/-- C1 counterexample: with one record of revenue 10 and 5 % decay in every
tier, the code yields `projections[1].revenue = 9` (it carries the unrounded
9.5 forward, giving `round 9.025 = 9`), while the claim's recurrence
`revenue[1] = round(revenue[0] * (1 - decay/100)) = round(10 * 0.95) = 10`
demands 10: the rounded value of a year is not the value carried forward. -/
theorem projections_rounded_carry_refuted :
    validConfig cfg5 ∧
    ¬ (((calculateProjections [rec10] cfg5 2024).getD 1 ⟨0, 0, 0⟩).revenue =
        round ((((calculateProjections [rec10] cfg5 2024).getD 0 ⟨0, 0, 0⟩).revenue : ℚ) *
          (1 - cfg5.yearOneDecay / 100))) := by
  refine ⟨validConfig_cfg5, ?_⟩
  simp only [calculateProjections, projLoop, getDecayRate, calculateBaseRevenue,
    groupRevenueByPlatform, addRevenue, cfg5, rec10, List.foldl, List.lookup,
    List.map, List.getD, List.get?, round_eq]
  norm_num

/-- C1 (amended): for every valid config and non-empty record set, the
projection sequence has exactly 7 entries; entry `i` is labelled
`currentYear + i`, uses decay `yearOneDecay` for `i < 2`, `yearTwoDecay` for
`2 ≤ i < 4`, `yearThreeDecay` for `i ≥ 4`, and its revenue is
`round u[i]` for the unrounded recurrence `u[-1] = baseRevenue` (the sum of
revenue over all records), `u[i] = u[i-1] * (1 - decay/100)`: the unrounded
value, not the rounded one, is carried into the next year. -/
theorem calculateProjections_seven_year_tiered_decay
    (data : List StreamRecord) (config : ValuationConfig) (currentYear : ℤ)
    (_hvalid : validConfig config) (_hne : data ≠ []) :
    (calculateProjections data config currentYear).length = 7 ∧
    calculateBaseRevenue data = (data.map (·.revenue)).sum ∧
    ∀ i : Fin 7,
      ((calculateProjections data config currentYear).getD i ⟨0, 0, 0⟩).year
          = currentYear + ((i : ℕ) : ℤ) ∧
      ((calculateProjections data config currentYear).getD i ⟨0, 0, 0⟩).decayRate =
        (if (i : ℕ) < 2 then config.yearOneDecay
         else if (i : ℕ) < 4 then config.yearTwoDecay
         else config.yearThreeDecay) ∧
      ((calculateProjections data config currentYear).getD i ⟨0, 0, 0⟩).revenue =
        round (unroundedRevenue config (calculateBaseRevenue data) ((i : ℕ) + 1)) := by
  refine ⟨rfl, calculateBaseRevenue_eq_sum data, ?_⟩
  intro i
  fin_cases i <;>
    simp [calculateProjections, projLoop, getDecayRate, unroundedRevenue]

/-- C1 witness: the amended projection theorem applied to the concrete
configuration `cfg5` and the one-record data set `[rec10]`. -/
theorem calculateProjections_seven_year_tiered_decay_witness :
    validConfig cfg5 ∧ ([rec10] : List StreamRecord) ≠ [] ∧
    ((calculateProjections [rec10] cfg5 2024).length = 7 ∧
     calculateBaseRevenue [rec10] = (([rec10] : List StreamRecord).map (·.revenue)).sum ∧
     ∀ i : Fin 7,
       ((calculateProjections [rec10] cfg5 2024).getD i ⟨0, 0, 0⟩).year
           = 2024 + ((i : ℕ) : ℤ) ∧
       ((calculateProjections [rec10] cfg5 2024).getD i ⟨0, 0, 0⟩).decayRate =
         (if (i : ℕ) < 2 then cfg5.yearOneDecay
          else if (i : ℕ) < 4 then cfg5.yearTwoDecay
          else cfg5.yearThreeDecay) ∧
       ((calculateProjections [rec10] cfg5 2024).getD i ⟨0, 0, 0⟩).revenue =
         round (unroundedRevenue cfg5 (calculateBaseRevenue [rec10]) ((i : ℕ) + 1))) :=
  ⟨validConfig_cfg5, by simp,
    calculateProjections_seven_year_tiered_decay [rec10] cfg5 2024 validConfig_cfg5 (by simp)⟩

/-- For any 7 explicit projection entries, the NPV fold of `generateSummary`
equals the rounded sum of the seven discounted terms. -/
theorem generateSummary_npv_explicit (data : List StreamRecord)
    (a b c d e f g : ProjectionYear) :
    (generateSummary data [a, b, c, d, e, f, g]).projectedValue
      = round (discountedTerm [a, b, c, d, e, f, g] 0 + discountedTerm [a, b, c, d, e, f, g] 1
          + discountedTerm [a, b, c, d, e, f, g] 2 + discountedTerm [a, b, c, d, e, f, g] 3
          + discountedTerm [a, b, c, d, e, f, g] 4 + discountedTerm [a, b, c, d, e, f, g] 5
          + discountedTerm [a, b, c, d, e, f, g] 6) := by
  simp only [generateSummary, discountedTerm, List.enum, List.enumFrom, List.foldl,
    List.getD, List.get?, Option.getD_some]
  congr 1
  ring

/-- C2 (confirmed): the summary computed from a record set and its 7-entry
projection sequence has `totalTracks` = number of distinct `date` values,
`totalStreams` = sum of `streams`, `currentRevenue` (named
`currentAnnualRevenue` in the schema) = `projections[0].revenue`, and
`projectedValue` = `round (Σ revenue[i] / (1 + 0.1)^(i+1))` over the 7
entries. -/
theorem generateSummary_summary_fields
    (data : List StreamRecord) (config : ValuationConfig) (currentYear : ℤ) :
    (generateSummary data (calculateProjections data config currentYear)).totalTracks
        = (data.map (·.date)).toFinset.card ∧
    (generateSummary data (calculateProjections data config currentYear)).totalStreams
        = (data.map (·.streams)).sum ∧
    (calculateProjections data config currentYear).head?.map (·.revenue)
        = some (generateSummary data
            (calculateProjections data config currentYear)).currentRevenue ∧
    (generateSummary data (calculateProjections data config currentYear)).projectedValue
        = round (discountedTerm (calculateProjections data config currentYear) 0
            + discountedTerm (calculateProjections data config currentYear) 1
            + discountedTerm (calculateProjections data config currentYear) 2
            + discountedTerm (calculateProjections data config currentYear) 3
            + discountedTerm (calculateProjections data config currentYear) 4
            + discountedTerm (calculateProjections data config currentYear) 5
            + discountedTerm (calculateProjections data config currentYear) 6) := by
  refine ⟨?_, ?_, ?_, ?_⟩
  · simp [generateSummary, List.card_toFinset]
  · have := foldl_add_map (fun r : StreamRecord => r.streams) data 0
    simp only [generateSummary]
    simpa using this
  · simp [generateSummary, calculateProjections, projLoop]
  · exact generateSummary_npv_explicit data _ _ _ _ _ _ _

/-- Each chunk progress value is non-negative. -/
theorem chunkProgress_nonneg (n k : ℕ) : 0 ≤ chunkProgress n k := by
  unfold chunkProgress
  apply le_min _ (by norm_num)
  positivity

/-- Each chunk progress value is capped at 99. -/
theorem chunkProgress_le_99 (n k : ℕ) : chunkProgress n k ≤ 99 :=
  min_le_right _ _

/-- Chunk progress values are monotone in the chunk index. -/
theorem chunkProgress_mono (n : ℕ) {k k' : ℕ} (h : k ≤ k') :
    chunkProgress n k ≤ chunkProgress n k' := by
  unfold chunkProgress
  apply min_le_min _ le_rfl
  apply mul_le_mul_of_nonneg_right _ (by norm_num)
  rcases Nat.eq_zero_or_pos n with h0 | hpos
  · subst h0; simp
  · apply (div_le_div_iff_of_pos_right (by exact_mod_cast hpos)).mpr
    exact_mod_cast min_le_min (Nat.mul_le_mul_left _ (by omega)) le_rfl

/-- The progress value left by the loop never exceeds 99. -/
theorem lastProgress_le_99 (n : ℕ) : lastProgress n ≤ 99 := by
  unfold lastProgress progressUpdates
  rcases Nat.eq_zero_or_pos (numChunks n) with h0 | hpos
  · rw [h0]; simp
  · obtain ⟨m, hm⟩ : ∃ m, numChunks n = m + 1 := ⟨numChunks n - 1, by omega⟩
    rw [hm, List.range_succ, List.map_append]
    simp [List.getLastD_concat, chunkProgress_le_99]

/-- With at least one file, the final chunk writes exactly 99 (the last chunk
reaches `i + chunk.length = n`, so `min(100, 99) = 99`). -/
theorem lastProgress_eq_99 (n : ℕ) (h : 1 ≤ n) : lastProgress n = 99 := by
  unfold lastProgress progressUpdates
  have h3 : n ≤ chunkSize * numChunks n := by unfold numChunks chunkSize; omega
  have hpos : 1 ≤ numChunks n := by unfold numChunks chunkSize; omega
  obtain ⟨m, hm⟩ : ∃ m, numChunks n = m + 1 := ⟨numChunks n - 1, by omega⟩
  rw [hm, List.range_succ, List.map_append]
  simp only [List.map_cons, List.map_nil, List.getLastD_concat]
  unfold chunkProgress
  have hmin : min (chunkSize * (m + 1)) n = n := min_eq_right (by rw [← hm]; exact h3)
  rw [hmin, div_self (by exact_mod_cast (by omega : n ≠ 0)), one_mul]
  norm_num

/-- The progress value left by the loop is non-negative. -/
theorem lastProgress_nonneg (n : ℕ) : 0 ≤ lastProgress n := by
  rcases Nat.eq_zero_or_pos n with h0 | hpos
  · subst h0
    norm_num [lastProgress, progressUpdates, numChunks, chunkSize]
  · rw [lastProgress_eq_99 n hpos]; norm_num

/-- Every chunk progress value is bounded by the final one. -/
theorem chunkProgress_le_lastProgress (n k : ℕ) (hk : k < numChunks n) :
    chunkProgress n k ≤ lastProgress n := by
  have hn : 1 ≤ n := by unfold numChunks chunkSize at hk; omega
  rw [lastProgress_eq_99 n hn]
  exact chunkProgress_le_99 n k

/-- A relation holding for all pairs holds pairwise on every list. -/
theorem pairwise_of_forall_rel {α : Type} {R : α → α → Prop} (h : ∀ a b, R a b) :
    ∀ l : List α, l.Pairwise R := by
  intro l
  induction l with
  | nil => exact .nil
  | cons x xs ih => exact .cons (fun y _ => h x y) ih

/-- Every pre-finalization state has progress between 0 and the loop's final
progress value. -/
theorem pre_progress_bound (files : List FileInput) :
    ∀ a ∈ initBatch :: (progressUpdates files.length).map
      (fun p => (⟨Status.processing, p, none, none⟩ : BatchState)),
      0 ≤ a.progress ∧ a.progress ≤ lastProgress files.length := by
  intro a ha
  rcases List.mem_cons.mp ha with rfl | ha'
  · exact ⟨le_refl 0, lastProgress_nonneg _⟩
  rcases List.mem_map.mp ha' with ⟨p, hp, rfl⟩
  unfold progressUpdates at hp
  rcases List.mem_map.mp hp with ⟨k, hk, rfl⟩
  exact ⟨chunkProgress_nonneg _ _,
    chunkProgress_le_lastProgress _ _ (List.mem_range.mp hk)⟩

/-- The pre-finalization states have monotone non-decreasing progress. -/
theorem pre_pairwise (files : List FileInput) :
    List.Pairwise (fun a b : BatchState => a.progress ≤ b.progress)
      (initBatch :: (progressUpdates files.length).map
        (fun p => (⟨Status.processing, p, none, none⟩ : BatchState))) := by
  rw [List.pairwise_cons]
  constructor
  · intro b hb
    rcases List.mem_map.mp hb with ⟨p, hp, rfl⟩
    unfold progressUpdates at hp
    rcases List.mem_map.mp hp with ⟨k, _, rfl⟩
    exact chunkProgress_nonneg _ _
  · rw [List.pairwise_map]
    unfold progressUpdates
    rw [List.pairwise_map]
    exact (List.pairwise_lt_range _).imp
      (fun h => chunkProgress_mono _ (le_of_lt h))

/-- The final persisted state of a batch: the error row when zero records were
extracted, otherwise the completed row with results and progress 100. -/
theorem batchTrace_getLast (files : List FileInput) :
    (batchTrace files).getLast? = some (
      if combinedResults files = []
      then ⟨Status.error, lastProgress files.length, none, some noValidDataMsg⟩
      else ⟨Status.complete, 100, some (combinedResults files), none⟩) := by
  simp only [batchTrace]
  split
  · rename_i h
    rw [if_pos (List.length_eq_zero.mp h), List.getLast?_concat]
  · rename_i h
    rw [if_neg (fun hc => h (by rw [hc]; rfl))]
    rw [show ∀ y z : BatchState, ([y, z] : List BatchState) = [y] ++ [z] from fun _ _ => rfl,
      ← List.append_assoc, List.getLast?_concat]

/-- C3 counterexample: the row inserted at batch creation carries status
`processing` (the code's insert literally writes `status: 'processing'`),
not the claimed `pending`; the schema enum does not even contain `pending`
(it has `idle` as its column default instead). -/
theorem batch_created_processing_not_pending :
    (batchTrace [fileCsvOk]).head?.map (·.status) = some Status.processing ∧
    Status.processing ≠ Status.pending := by
  constructor
  · simp only [batchTrace]
    split <;> simp [initBatch]
  · decide

/-- C3 (amended): every batch is created in status `processing` (not
`pending`) with `progress = 0` (the creation insert sets neither `totalFiles`
nor `filesProcessed`); every state of the batch's lifetime has status in
`{processing, complete, error}`, `processing` is the only initial state, and
`complete` and `error` are terminal: once a state is terminal every later
state keeps that status. -/
theorem batchTrace_status_machine (files : List FileInput) :
    (batchTrace files).head?.map (·.status) = some Status.processing ∧
    (batchTrace files).head?.map (·.progress) = some 0 ∧
    (∀ s ∈ batchTrace files,
      s.status = Status.processing ∨ s.status = Status.complete ∨ s.status = Status.error) ∧
    List.Pairwise (fun a b : BatchState =>
      (a.status = Status.complete ∨ a.status = Status.error) → b.status = a.status)
      (batchTrace files) := by
  refine ⟨?_, ?_, ?_, ?_⟩
  · simp only [batchTrace]; split <;> simp [initBatch]
  · simp only [batchTrace]; split <;> simp [initBatch]
  · intro s hs
    simp only [batchTrace] at hs
    split at hs
    · rcases List.mem_cons.mp hs with rfl | hs'
      · left; rfl
      rcases List.mem_append.mp hs' with hm | hl
      · rcases List.mem_map.mp hm with ⟨p, _, hp⟩
        subst hp; left; rfl
      · rcases List.mem_singleton.mp hl with rfl
        right; right; rfl
    · rcases List.mem_cons.mp hs with rfl | hs'
      · left; rfl
      rcases List.mem_append.mp hs' with hm | hl
      · rcases List.mem_map.mp hm with ⟨p, _, hp⟩
        subst hp; left; rfl
      · rcases List.mem_cons.mp hl with rfl | hl2
        · right; left; rfl
        rcases List.mem_singleton.mp hl2 with rfl
        right; left; rfl
  · have hproc : ∀ a ∈ initBatch :: (progressUpdates files.length).map
        (fun p => (⟨Status.processing, p, none, none⟩ : BatchState)),
        a.status = Status.processing := by
      intro a ha
      rcases List.mem_cons.mp ha with rfl | ha'
      · rfl
      rcases List.mem_map.mp ha' with ⟨p, _, hp⟩
      subst hp; rfl
    have hpre : List.Pairwise (fun a b : BatchState =>
        (a.status = Status.complete ∨ a.status = Status.error) → b.status = a.status)
        (initBatch :: (progressUpdates files.length).map
          (fun p => (⟨Status.processing, p, none, none⟩ : BatchState))) := by
      rw [List.pairwise_cons]
      refine ⟨fun b _ hcontra => ?_, ?_⟩
      · exfalso; simp [initBatch] at hcontra
      · rw [List.pairwise_map]
        apply pairwise_of_forall_rel
        intro a b hcontra; exfalso; simp at hcontra
    simp only [batchTrace]
    split
    · rw [List.pairwise_append]
      refine ⟨hpre, by simp, ?_⟩
      intro a ha b hb hcontra
      exfalso
      rw [hproc a ha] at hcontra
      simp at hcontra
    · rw [List.pairwise_append]
      refine ⟨hpre, by simp, ?_⟩
      intro a ha b hb hcontra
      exfalso
      rw [hproc a ha] at hcontra
      simp at hcontra

/-- C3 witness: the amended state-machine theorem at the one-file batch
`[fileCsvOk]`. -/
theorem batchTrace_status_machine_witness :
    (batchTrace [fileCsvOk]).head?.map (·.progress) = some 0 ∧
    ((∀ s ∈ batchTrace [fileCsvOk],
      s.status = Status.processing ∨ s.status = Status.complete ∨ s.status = Status.error) ∧
    List.Pairwise (fun a b : BatchState =>
      (a.status = Status.complete ∨ a.status = Status.error) → b.status = a.status)
      (batchTrace [fileCsvOk])) :=
  ⟨(batchTrace_status_machine [fileCsvOk]).2.1,
   (batchTrace_status_machine [fileCsvOk]).2.2.1,
   (batchTrace_status_machine [fileCsvOk]).2.2.2⟩

/-- C4 (confirmed): a file whose extraction fails contributes zero records
and the remaining files' records are exactly preserved, and the batch ends in
terminal status `error` if and only if the combined record set over all files
is empty (an all-failing batch therefore ends in `error`, never in `complete`
with an empty result set). -/
theorem processFiles_failure_contained_error_iff (files : List FileInput) :
    (∀ xs f ys, files = xs ++ f :: ys → (∃ e, f.extract = Except.error e) →
        perFileResult f = [] ∧ combinedResults files = combinedResults (xs ++ ys)) ∧
    ((batchTrace files).getLast?.map (·.status) = some Status.error ↔
      combinedResults files = []) := by
  constructor
  · rintro xs f ys rfl ⟨e, he⟩
    have hf : perFileResult f = [] := by
      unfold perFileResult
      split
      · rfl
      · rw [he]
    refine ⟨hf, ?_⟩
    simp [combinedResults, hf]
  · rw [batchTrace_getLast]
    by_cases h : combinedResults files = []
    · simp [h]
    · simp [h]

/-- C4 witness: the containment-and-error theorem at a two-file batch whose
second file fails extraction. -/
theorem processFiles_failure_contained_error_iff_witness :
    (∀ xs f ys, ([fileCsvOk, fileBroken] : List FileInput) = xs ++ f :: ys →
        (∃ e, f.extract = Except.error e) →
        perFileResult f = [] ∧
        combinedResults [fileCsvOk, fileBroken] = combinedResults (xs ++ ys)) ∧
    ((batchTrace [fileCsvOk, fileBroken]).getLast?.map (·.status) = some Status.error ↔
      combinedResults [fileCsvOk, fileBroken] = []) :=
  processFiles_failure_contained_error_iff [fileCsvOk, fileBroken]

/-- C9 (confirmed): over a batch's lifetime the stored progress is monotone
non-decreasing, every state still in `processing` has progress at most 99,
any state with progress 100 is the post-finalize complete state carrying the
persisted results, and on a non-empty result set the final state is exactly
`(complete, 100, results)`. -/
theorem batchTrace_progress_lifecycle (files : List FileInput) :
    List.Pairwise (fun a b : BatchState => a.progress ≤ b.progress) (batchTrace files) ∧
    (∀ s ∈ batchTrace files, s.status = Status.processing → s.progress ≤ 99) ∧
    (∀ s ∈ batchTrace files, s.progress = 100 →
      s.status = Status.complete ∧ s.results = some (combinedResults files)) ∧
    (combinedResults files ≠ [] →
      (batchTrace files).getLast? =
        some ⟨Status.complete, 100, some (combinedResults files), none⟩) := by
  refine ⟨?_, ?_, ?_, ?_⟩
  · simp only [batchTrace]
    split
    · rw [List.pairwise_append]
      refine ⟨pre_pairwise files, by simp, ?_⟩
      intro a ha b hb
      rcases List.mem_singleton.mp hb with rfl
      exact (pre_progress_bound files a ha).2
    · rw [List.pairwise_append]
      refine ⟨pre_pairwise files, ?_, ?_⟩
      · refine List.Pairwise.cons ?_ (by simp)
        intro b hb
        rcases List.mem_singleton.mp hb with rfl
        exact le_trans (lastProgress_le_99 _) (by norm_num)
      · intro a ha b hb
        have hab := (pre_progress_bound files a ha).2
        rcases List.mem_cons.mp hb with rfl | hb'
        · exact hab
        rcases List.mem_singleton.mp hb' with rfl
        exact le_trans hab (le_trans (lastProgress_le_99 _) (by norm_num))
  · intro s hs hproc
    simp only [batchTrace] at hs
    split at hs
    · rcases List.mem_append.mp hs with hpre | hl
      · exact le_trans (pre_progress_bound files s hpre).2 (lastProgress_le_99 _)
      · rcases List.mem_singleton.mp hl with rfl
        exact lastProgress_le_99 _
    · rcases List.mem_append.mp hs with hpre | hl
      · exact le_trans (pre_progress_bound files s hpre).2 (lastProgress_le_99 _)
      · rcases List.mem_cons.mp hl with rfl | hl2
        · exact lastProgress_le_99 _
        rcases List.mem_singleton.mp hl2 with rfl
        simp at hproc
  · intro s hs h100
    simp only [batchTrace] at hs
    split at hs
    · exfalso
      rcases List.mem_append.mp hs with hpre | hl
      · have hb := (pre_progress_bound files s hpre).2
        have h99 := lastProgress_le_99 files.length
        rw [h100] at hb
        linarith
      · rcases List.mem_singleton.mp hl with rfl
        have h99 := lastProgress_le_99 files.length
        simp only at h100
        linarith
    · rcases List.mem_append.mp hs with hpre | hl
      · exfalso
        have hb := (pre_progress_bound files s hpre).2
        have h99 := lastProgress_le_99 files.length
        rw [h100] at hb
        linarith
      · rcases List.mem_cons.mp hl with rfl | hl2
        · exfalso
          have h99 := lastProgress_le_99 files.length
          simp only at h100
          linarith
        rcases List.mem_singleton.mp hl2 with rfl
        exact ⟨rfl, rfl⟩
  · intro hne
    rw [batchTrace_getLast, if_neg hne]

/-- C9 witness: the progress-lifecycle theorem at the one-file batch
`[fileCsvOk]`. -/
theorem batchTrace_progress_lifecycle_witness :
    List.Pairwise (fun a b : BatchState => a.progress ≤ b.progress)
      (batchTrace [fileCsvOk]) ∧
    ((∀ s ∈ batchTrace [fileCsvOk], s.status = Status.processing → s.progress ≤ 99) ∧
    (∀ s ∈ batchTrace [fileCsvOk], s.progress = 100 →
      s.status = Status.complete ∧ s.results = some (combinedResults [fileCsvOk])) ∧
    (combinedResults [fileCsvOk] ≠ [] →
      (batchTrace [fileCsvOk]).getLast? =
        some ⟨Status.complete, 100, some (combinedResults [fileCsvOk]), none⟩)) :=
  ⟨(batchTrace_progress_lifecycle [fileCsvOk]).1,
   (batchTrace_progress_lifecycle [fileCsvOk]).2.1,
   (batchTrace_progress_lifecycle [fileCsvOk]).2.2.1,
   (batchTrace_progress_lifecycle [fileCsvOk]).2.2.2⟩

/-- C10 (confirmed): a file larger than 50 MB is rejected before extraction,
contributes zero records, and the batch continues: the combined record set
equals that of the remaining files and the final status is decided by the
remaining files alone. -/
theorem oversize_file_rejected_contained (files xs ys : List FileInput) (f : FileInput)
    (hsplit : files = xs ++ f :: ys) (hsize : f.size > 50 * 1024 * 1024) :
    perFileResult f = [] ∧
    combinedResults files = combinedResults (xs ++ ys) ∧
    ((batchTrace files).getLast?.map (·.status)
      = some (if combinedResults (xs ++ ys) = [] then Status.error else Status.complete)) := by
  subst hsplit
  have hf : perFileResult f = [] := by
    unfold perFileResult
    rw [if_pos (by simpa [maxFileSize] using hsize)]
  have hc : combinedResults (xs ++ f :: ys) = combinedResults (xs ++ ys) := by
    simp [combinedResults, hf]
  refine ⟨hf, hc, ?_⟩
  rw [batchTrace_getLast, hc]
  by_cases h : combinedResults (xs ++ ys) = [] <;> simp [h]

/-- When both alias columns are falsy (absent or empty), the `||` chain
yields the default. -/
theorem firstTruthy_of_falsy (a b : Option String) (d : String)
    (ha : jsTruthy a = false) (hb : jsTruthy b = false) :
    firstTruthy [a, b] d = d := by
  cases a <;> cases b <;> simp_all [firstTruthy, jsTruthy]

/-- C5 counterexample: a row with no streams column at all is kept with
`streams = 0` (the code defaults the missing value to the string `'0'`, and
`parseInt('0') = 0` is not `NaN`), though the claim demands its exclusion;
and a row with `streams = "-5"` is kept with the negative value `-5`, though
the claim demands that only non-negative integers pass. -/
theorem processCsv_absent_or_negative_kept_refuted :
    (normalizeRow rowNoStreams "2024-06-01").map (·.streams) = some 0 ∧
    (normalizeRow rowNegStreams "2024-06-01").map (·.streams) = some (-5) := by
  constructor
  · decide
  · decide

/-- C5 (amended): a raw row is excluded exactly when its streams value
(defaulted to the string `'0'` when absent or empty) fails `parseInt`, or its
revenue value (defaulted to `'0'`) fails `parseFloat`; in particular a row
with absent streams is kept (with `streams = 0`) whenever its revenue parses,
and no sign check is performed.  A row missing `platform` is kept with
`platform = "Unknown"`, a row missing `date` is kept with the current date,
and excluded rows are dropped silently (the output is a sublist-sized list,
never a failure). -/
theorem processCsv_row_normalization (rows : List RawRow) (today : String) :
    (processCsv rows today).length ≤ rows.length ∧
    ∀ row ∈ rows,
      ((normalizeRow row today = none) ↔
        (jsParseInt (firstTruthy [row.streams, row.Streams] "0") = none ∨
         jsParseFloat (firstTruthy [row.revenue, row.Revenue] "0") = none)) ∧
      (row.streams = none → row.Streams = none →
        ((normalizeRow row today = none) ↔
          jsParseFloat (firstTruthy [row.revenue, row.Revenue] "0") = none)) ∧
      (row.streams = none → row.Streams = none →
        ∀ rec, normalizeRow row today = some rec → rec.streams = 0) ∧
      (jsTruthy row.platform = false → jsTruthy row.Platform = false →
        ∀ rec, normalizeRow row today = some rec → rec.platform = "Unknown") ∧
      (jsTruthy row.date = false → jsTruthy row.Date = false →
        ∀ rec, normalizeRow row today = some rec → rec.date = today) := by
  constructor
  · exact List.length_filterMap_le _ _
  intro row _
  have h0 : jsParseInt (firstTruthy [(none : Option String), none] "0") = some 0 := by decide
  refine ⟨?_, ?_, ?_, ?_, ?_⟩
  · unfold normalizeRow
    cases hsi : jsParseInt (firstTruthy [row.streams, row.Streams] "0") <;>
      cases hrv : jsParseFloat (firstTruthy [row.revenue, row.Revenue] "0") <;>
      simp
  · intro h1 h2
    unfold normalizeRow
    rw [h1, h2, h0]
    cases hrv : jsParseFloat (firstTruthy [row.revenue, row.Revenue] "0") <;> simp
  · intro h1 h2 rec hrec
    unfold normalizeRow at hrec
    rw [h1, h2, h0] at hrec
    cases hrv : jsParseFloat (firstTruthy [row.revenue, row.Revenue] "0") <;>
      rw [hrv] at hrec <;> simp at hrec
    subst hrec
    rfl
  · intro hp1 hp2 rec hrec
    unfold normalizeRow at hrec
    cases hsi : jsParseInt (firstTruthy [row.streams, row.Streams] "0") <;>
      cases hrv : jsParseFloat (firstTruthy [row.revenue, row.Revenue] "0") <;>
      rw [hsi, hrv] at hrec <;> simp at hrec
    subst hrec
    exact firstTruthy_of_falsy _ _ _ hp1 hp2
  · intro hd1 hd2 rec hrec
    unfold normalizeRow at hrec
    cases hsi : jsParseInt (firstTruthy [row.streams, row.Streams] "0") <;>
      cases hrv : jsParseFloat (firstTruthy [row.revenue, row.Revenue] "0") <;>
      rw [hsi, hrv] at hrec <;> simp at hrec
    subst hrec
    exact firstTruthy_of_falsy _ _ _ hd1 hd2

/-- C5 witness: the normalization theorem at the two concrete rows. -/
theorem processCsv_row_normalization_witness :
    (processCsv [rowNoStreams, rowNegStreams] "2024-06-01").length ≤
      ([rowNoStreams, rowNegStreams] : List RawRow).length ∧
    ∀ row ∈ ([rowNoStreams, rowNegStreams] : List RawRow),
      ((normalizeRow row "2024-06-01" = none) ↔
        (jsParseInt (firstTruthy [row.streams, row.Streams] "0") = none ∨
         jsParseFloat (firstTruthy [row.revenue, row.Revenue] "0") = none)) ∧
      (row.streams = none → row.Streams = none →
        ((normalizeRow row "2024-06-01" = none) ↔
          jsParseFloat (firstTruthy [row.revenue, row.Revenue] "0") = none)) ∧
      (row.streams = none → row.Streams = none →
        ∀ rec, normalizeRow row "2024-06-01" = some rec → rec.streams = 0) ∧
      (jsTruthy row.platform = false → jsTruthy row.Platform = false →
        ∀ rec, normalizeRow row "2024-06-01" = some rec → rec.platform = "Unknown") ∧
      (jsTruthy row.date = false → jsTruthy row.Date = false →
        ∀ rec, normalizeRow row "2024-06-01" = some rec → rec.date = "2024-06-01") :=
  processCsv_row_normalization [rowNoStreams, rowNegStreams] "2024-06-01"

/-- C10 witness: the oversize-rejection theorem at a two-file batch whose
second file is 60 MB. -/
theorem oversize_file_rejected_contained_witness :
    perFileResult fileBig = [] ∧
    combinedResults [fileCsvOk, fileBig] = combinedResults ([fileCsvOk] ++ []) ∧
    ((batchTrace [fileCsvOk, fileBig]).getLast?.map (·.status)
      = some (if combinedResults ([fileCsvOk] ++ []) = []
          then Status.error else Status.complete)) :=
  oversize_file_rejected_contained [fileCsvOk, fileBig] [fileCsvOk] [] fileBig rfl
    (by norm_num [fileBig])


/-- The invariant of the `findFirst` fold: a `some` result is an element of
the folded list (or the initial accumulator) and dominates the completion
timestamps of the accumulator and of every folded element; a `none` result
means nothing was folded. -/
theorem latestAux_spec :
    ∀ (l : List BatchRow) (acc : Option BatchRow),
      (l.foldl (fun acc b =>
        match acc with
        | none => some b
        | some a => if a.completedAt < b.completedAt then some b else some a) acc = none →
          acc = none ∧ l = []) ∧
      (∀ r, l.foldl (fun acc b =>
        match acc with
        | none => some b
        | some a => if a.completedAt < b.completedAt then some b else some a) acc = some r →
          ((acc = some r ∨ r ∈ l) ∧
           (∀ a, acc = some a → a.completedAt ≤ r.completedAt) ∧
           (∀ b ∈ l, b.completedAt ≤ r.completedAt))) := by
  intro l
  induction l with
  | nil =>
    intro acc
    constructor
    · intro h; exact ⟨h, rfl⟩
    · intro r h
      refine ⟨Or.inl h, ?_, by simp⟩
      intro a ha
      rw [ha] at h
      cases h
      exact le_refl _
  | cons b l ih =>
    intro acc
    constructor
    · intro h
      simp only [List.foldl_cons] at h
      cases acc with
      | none => exact absurd ((ih (some b)).1 h).1 (by simp)
      | some a =>
        dsimp only at h
        rcases Nat.lt_or_ge a.completedAt b.completedAt with hlt | hge
        · rw [if_pos hlt] at h
          exact Option.noConfusion ((ih (some b)).1 h).1
        · rw [if_neg (Nat.not_lt.mpr hge)] at h
          exact Option.noConfusion ((ih (some a)).1 h).1
    · intro r h
      simp only [List.foldl_cons] at h
      cases acc with
      | none =>
        obtain ⟨hor, hprev, hall⟩ := (ih (some b)).2 r h
        refine ⟨?_, by simp, ?_⟩
        · rcases hor with hb | hl
          · cases hb; exact Or.inr (List.mem_cons_self b l)
          · exact Or.inr (List.mem_cons_of_mem b hl)
        · intro c hc
          rcases List.mem_cons.mp hc with rfl | hcl
          · exact hprev c rfl
          · exact hall c hcl
      | some a =>
        dsimp only at h
        by_cases hlt : a.completedAt < b.completedAt
        · rw [if_pos hlt] at h
          obtain ⟨hor, hprev, hall⟩ := (ih (some b)).2 r h
          refine ⟨?_, ?_, ?_⟩
          · rcases hor with hb | hl
            · cases hb; exact Or.inr (List.mem_cons_self b l)
            · exact Or.inr (List.mem_cons_of_mem b hl)
          · intro a0 ha0
            cases ha0
            exact le_trans (le_of_lt hlt) (hprev b rfl)
          · intro c hc
            rcases List.mem_cons.mp hc with rfl | hcl
            · exact hprev c rfl
            · exact hall c hcl
        · rw [if_neg hlt] at h
          obtain ⟨hor, hprev, hall⟩ := (ih (some a)).2 r h
          refine ⟨?_, ?_, ?_⟩
          · rcases hor with hb | hl
            · exact Or.inl hb
            · exact Or.inr (List.mem_cons_of_mem b hl)
          · intro a0 ha0
            cases ha0
            exact hprev a rfl
          · intro c hc
            rcases List.mem_cons.mp hc with rfl | hcl
            · exact le_trans (Nat.le_of_not_lt hlt) (hprev a rfl)
            · exact hall c hcl

/-- C8 (amended): a valuation request fails with the no-data error exactly
when no `complete` batch exists or the selected batch's `results` field is
null; the selected batch is a `complete` row of the database whose completion
timestamp dominates every other `complete` row; and in the failure case no
valuation report is computed or persisted.  (A complete batch whose `results`
holds the empty array is returned as an empty record set without failing —
the code checks `!latestBatch.results`, which an empty array passes.) -/
theorem getStreamData_selection_and_failure (db : List BatchRow) (config : ValuationConfig) (currentYear : ℤ) :
    (getStreamData db = .error noProcessedDataMsg ↔
      (latestCompleteBatch db = none ∨
       ∃ b, latestCompleteBatch db = some b ∧ b.results = none)) ∧
    (∀ b, latestCompleteBatch db = some b →
      b.status = Status.complete ∧ b ∈ db ∧
      ∀ c ∈ db, c.status = Status.complete → c.completedAt ≤ b.completedAt) ∧
    (∀ e, getStreamData db = .error e →
      calculateValuation db config currentYear = .error e) := by
  refine ⟨?_, ?_, ?_⟩
  · unfold getStreamData
    cases hb : latestCompleteBatch db with
    | none => simp
    | some b =>
      dsimp only
      cases hr : b.results with
      | none =>
        constructor
        · intro _; exact Or.inr ⟨b, rfl, hr⟩
        · intro _; rfl
      | some rs =>
        constructor
        · intro h; exact Except.noConfusion h
        · rintro (hnone | ⟨b', hb', hr'⟩)
          · exact Option.noConfusion hnone
          · cases hb'
            rw [hr] at hr'
            exact Option.noConfusion hr'
  · intro b hb
    unfold latestCompleteBatch at hb
    obtain ⟨hor, _, hall⟩ :=
      (latestAux_spec (db.filter (fun b => b.status == Status.complete)) none).2 b hb
    rcases hor with hcontra | hmem
    · exact Option.noConfusion hcontra
    · have hstatus : b.status = Status.complete := by
        have := List.of_mem_filter hmem
        simpa using this
      refine ⟨hstatus, List.mem_of_mem_filter hmem, ?_⟩
      intro c hc hcs
      exact hall c (List.mem_filter.mpr ⟨hc, by simp [hcs]⟩)
  · intro e h
    unfold calculateValuation
    rw [h]

/-- C6 counterexample: `badItem` fails the canonical record validation (its
streams value 3/2 is not an integer), yet the image-analysis path returns it
to the caller: `processImage` hands back the parsed JSON array with no
per-record validation, no filtering and no zero-record failure. -/
theorem image_records_unvalidated_refuted :
    validRecordItem badItem = false ∧
    processImageParsed [badItem] = .ok [badItem] := ⟨by decide, rfl⟩

/-- C6 (amended): only the text-analysis path validates: `analyzeDocument`
keeps exactly the records passing the canonical shape check (platform string,
integer streams, numeric revenue, ISO `YYYY-MM-DD` date), filters the rest
out, and fails when zero records survive; the image-analysis path returns the
parsed payload as-is, without validation. -/
theorem gateway_validation_text_path_only (parsedData : List RawItem) :
    (∀ item ∈ parsedData.filter validRecordItem, validRecordItem item = true) ∧
    (∀ item ∈ parsedData, validRecordItem item = false →
      item ∉ parsedData.filter validRecordItem) ∧
    ((parsedData.filter validRecordItem).length = 0 →
      analyzeDocumentValidation parsedData
        = .error "No valid records found in analyzed data") ∧
    ((parsedData.filter validRecordItem).length ≠ 0 →
      analyzeDocumentValidation parsedData =
        .ok ((parsedData.filter validRecordItem).map normalizeItem)) ∧
    processImageParsed parsedData = .ok parsedData := by
  refine ⟨?_, ?_, ?_, ?_, rfl⟩
  · intro item h
    exact List.of_mem_filter h
  · intro item _ hfalse hmem
    have ht := List.of_mem_filter hmem
    rw [hfalse] at ht
    cases ht
  · intro h
    unfold analyzeDocumentValidation
    rw [if_pos (by simpa using h)]
  · intro h
    unfold analyzeDocumentValidation
    rw [if_neg (by simpa using h)]

/-- C6 witness: the gateway validation theorem at the one-item payload
`[badItem]`. -/
theorem gateway_validation_text_path_only_witness :
    (∀ item ∈ ([badItem] : List RawItem).filter validRecordItem,
      validRecordItem item = true) ∧
    (∀ item ∈ ([badItem] : List RawItem), validRecordItem item = false →
      item ∉ ([badItem] : List RawItem).filter validRecordItem) ∧
    ((([badItem] : List RawItem).filter validRecordItem).length = 0 →
      analyzeDocumentValidation [badItem]
        = .error "No valid records found in analyzed data") ∧
    ((([badItem] : List RawItem).filter validRecordItem).length ≠ 0 →
      analyzeDocumentValidation [badItem] =
        .ok ((([badItem] : List RawItem).filter validRecordItem).map normalizeItem)) ∧
    processImageParsed [badItem] = .ok [badItem] :=
  gateway_validation_text_path_only [badItem]

/-- C7 (code bug): an underlying call that is rate-limited (HTTP 429) on its
first invocation and would succeed on the second.  `analyzeDocument`'s inner
catch rethrows every failure as a plain `Error` without the `status` field,
so the rate limiter's retry condition `error?.status === 429` never matches:
the wrapped call surfaces the failure immediately without any retry, while
the bare `schedule` retry logic itself would have retried and succeeded on
the very same outcome sequence. -/
theorem analyzeDocument_swallows_rate_limit :
    analyzeDocumentCall fn429
      = .error ⟨none, "Failed to analyze document: rate limited"⟩ ∧
    schedule fn429 0 defaultRetries = .ok [rec10] := by
  constructor
  · rfl
  · rfl

/-- C8 counterexample: on a database holding one complete batch whose stored
result set is the empty array, `getStreamData` returns the empty record set
instead of failing with the no-data error the claim demands. -/
theorem getStreamData_empty_results_ok_refuted :
    getStreamData [emptyCompleteBatch] = .ok [] ∧
    ∀ e, getStreamData [emptyCompleteBatch] ≠ Except.error e := by
  constructor
  · rfl
  · intro e h
    exact Except.noConfusion h

/-- C8 witness: the selection-and-failure theorem at the one-row database
`[emptyCompleteBatch]`. -/
theorem getStreamData_selection_and_failure_witness :
    (getStreamData [emptyCompleteBatch] = .error noProcessedDataMsg ↔
      (latestCompleteBatch [emptyCompleteBatch] = none ∨
       ∃ b, latestCompleteBatch [emptyCompleteBatch] = some b ∧ b.results = none)) ∧
    (∀ b, latestCompleteBatch [emptyCompleteBatch] = some b →
      b.status = Status.complete ∧ b ∈ ([emptyCompleteBatch] : List BatchRow) ∧
      ∀ c ∈ ([emptyCompleteBatch] : List BatchRow), c.status = Status.complete →
        c.completedAt ≤ b.completedAt) ∧
    (∀ e, getStreamData [emptyCompleteBatch] = .error e →
      calculateValuation [emptyCompleteBatch] cfg5 2024 = .error e) :=
  getStreamData_selection_and_failure [emptyCompleteBatch] cfg5 2024

end MusicCatalog
